import Mathlib

/-!
Shallow embedding of the chat server protocol engine
(`server.c`, `handleTable.c`, `pdu.c`) and verification of the
specification's claims about it.

Byte buffers are modelled as `List Nat` (each element a byte value),
C strings as NUL-free `List Nat`, sockets as `Int` (the C `int`
descriptor, with `-1` as the not-found sentinel of
`lookupSocketByHandle`), and the handle table as a `List` of entries
with the most recently added entry first (`addHandle` inserts at the
head of the linked list).
-/

namespace Chat

/-- The effective C string stored in a byte array: everything up to the
first NUL byte (`strcmp`/`strlen` semantics). -/
def cstr (l : List Nat) : List Nat := l.takeWhile (fun b => b ≠ 0)

/-- One entry of the server's handle table (`struct ClientEntry` in
`handleTable.h`): a handle (C string of at most 100 bytes) and the
socket descriptor. -/
structure ClientEntry where
  handle : List Nat
  socket : Int
deriving DecidableEq, Repr

/-- The handle table: linked list from `head`; `addHandle` prepends. -/
abbrev HandleTable := List ClientEntry

/-- `initHandleTable` in `handleTable.c`: the empty table. -/
def initHandleTable : HandleTable := []

/-- `addHandle` in `handleTable.c`: unconditionally allocates a new
entry, copies at most 100 bytes of the handle (`strncpy(dst, h, 100)`
followed by `dst[100] = 0`), prepends it to the list and returns 0.
There is no duplicate check. -/
def addHandle (handle : List Nat) (socket : Int) (t : HandleTable) :
    Int × HandleTable :=
  (0, { handle := (cstr handle).take 100, socket := socket } :: t)

/-- `lookupSocketByHandle` in `handleTable.c`: first entry whose handle
compares equal (`strcmp`), or `-1`. -/
def lookupSocketByHandle (handle : List Nat) : HandleTable → Int
  | [] => -1
  | e :: rest =>
      if e.handle = handle then e.socket else lookupSocketByHandle handle rest

/-- `lookupHandleBySocket` in `handleTable.c`: handle of the first entry
with the given socket, or NULL (`none`). -/
def lookupHandleBySocket (socket : Int) : HandleTable → Option (List Nat)
  | [] => none
  | e :: rest =>
      if e.socket = socket then some e.handle else lookupHandleBySocket socket rest

/-- `removeHandleBySocket` in `handleTable.c`: removes the first entry
with the given socket; returns 0 on removal, -1 if absent. -/
def removeHandleBySocket (socket : Int) : HandleTable → Int × HandleTable
  | [] => (-1, [])
  | e :: rest =>
      if e.socket = socket then (0, rest)
      else
        let r := removeHandleBySocket socket rest
        (r.1, e :: r.2)

/-- `getHandleCount` in `handleTable.c`: number of entries. -/
def getHandleCount (t : HandleTable) : Nat := t.length

/-- The observable effect of processing one inbound packet: the ordered
list of `sendPDU` calls (socket, payload), the handle table afterwards,
and whether the server closed the sender's connection. -/
structure Effect where
  sends : List (Int × List Nat)
  table : HandleTable
  closed : Bool
deriving DecidableEq, Repr

/-- `sendErrorPacket` in `server.c`: flag-7 packet
`[7, hlen, handle...]` with `hlen = (uint8_t) strlen(destHandle)`. -/
def errorPacket (destHandle : List Nat) : List Nat :=
  7 :: (destHandle.length % 256) :: destHandle.take (destHandle.length % 256)

/-- Big-endian 4-byte encoding (`htonl`) of a 32-bit value. -/
def be32 (n : Nat) : List Nat :=
  [n / 2 ^ 24 % 256, n / 2 ^ 16 % 256, n / 2 ^ 8 % 256, n % 256]

/-- Big-endian decoding of the 4 bytes following the flag. -/
def be32Decode (l : List Nat) : Nat :=
  l.getD 0 0 * 2 ^ 24 + l.getD 1 0 * 2 ^ 16 + l.getD 2 0 * 2 ^ 8 + l.getD 3 0

/-- The flag-11 roster header built by `processListRequest`:
`[11]` followed by the count as 4 big-endian bytes (`htonl`). -/
def listCountPacket (count : Nat) : List Nat := 11 :: be32 (count % 2 ^ 32)

/-- A flag-12 roster entry packet: `[12, hlen, handle...]` with
`hlen = (uint8_t) strlen(entry->handle)`. -/
def listEntryPacket (h : List Nat) : List Nat :=
  12 :: (h.length % 256) :: h.take (h.length % 256)

/-- `processRegistration` in `server.c`. -/
def processRegistration (sock : Int) (buffer : List Nat) (t : HandleTable) :
    Effect :=
  if buffer.length < 2 then ⟨[], t, false⟩
  else
    let hlen := buffer.getD 1 0
    if buffer.length < 2 + hlen then ⟨[], t, false⟩
    else if 100 < hlen then ⟨[(sock, [3])], t, true⟩
    else
      let handle := cstr ((buffer.drop 2).take hlen)
      if lookupSocketByHandle handle t ≠ -1 then ⟨[(sock, [3])], t, true⟩
      else ⟨[(sock, [2])], (addHandle handle sock t).2, false⟩

/-- `processBroadcast` in `server.c`: parse the sender handle, then
forward the packet to every table entry whose socket differs from that
of the sender. -/
def processBroadcast (sock : Int) (buffer : List Nat) (t : HandleTable) :
    Effect :=
  if buffer.length < 2 then ⟨[], t, false⟩
  else
    let shLen := buffer.getD 1 0
    if buffer.length < 2 + shLen then ⟨[], t, false⟩
    else ⟨(t.filter (fun e => e.socket ≠ sock)).map (fun e => (e.socket, buffer)),
          t, false⟩

/-- `processMessage` in `server.c` (flag 5, unicast). -/
def processMessage (sock : Int) (buffer : List Nat) (t : HandleTable) :
    Effect :=
  if buffer.length < 2 then ⟨[], t, false⟩
  else
    let shLen := buffer.getD 1 0
    if buffer.length < 2 + shLen then ⟨[], t, false⟩
    else
      let off := 2 + shLen
      if buffer.length < off + 1 then ⟨[], t, false⟩
      else
        let destCount := buffer.getD off 0
        if destCount ≠ 1 then ⟨[], t, false⟩
        else if buffer.length < off + 2 then ⟨[], t, false⟩
        else
          let dhLen := buffer.getD (off + 1) 0
          if buffer.length < off + 2 + dhLen then ⟨[], t, false⟩
          else
            let destHandle := cstr ((buffer.drop (off + 2)).take dhLen)
            let destSock := lookupSocketByHandle destHandle t
            if destSock = -1 then ⟨[(sock, errorPacket destHandle)], t, false⟩
            else ⟨[(destSock, buffer)], t, false⟩

/-- The destination loop of `processMulticast`: first argument is the
remaining iteration count, second the current parse offset.  An early
`return` on a malformed destination abandons the remaining iterations. -/
def multicastLoop (sock : Int) (buffer : List Nat) (t : HandleTable) :
    Nat → Nat → List (Int × List Nat)
  | 0, _ => []
  | n + 1, off =>
      if buffer.length < off + 1 then []
      else
        let dlen := buffer.getD off 0
        if buffer.length < off + 1 + dlen then []
        else
          let destHandle := cstr ((buffer.drop (off + 1)).take dlen)
          let destSock := lookupSocketByHandle destHandle t
          (if destSock = -1 then (sock, errorPacket destHandle)
           else (destSock, buffer)) ::
            multicastLoop sock buffer t n (off + 1 + dlen)

/-- `processMulticast` in `server.c` (flag 6). -/
def processMulticast (sock : Int) (buffer : List Nat) (t : HandleTable) :
    Effect :=
  if buffer.length < 2 then ⟨[], t, false⟩
  else
    let shLen := buffer.getD 1 0
    if buffer.length < 2 + shLen then ⟨[], t, false⟩
    else
      let off := 2 + shLen
      if buffer.length < off + 1 then ⟨[], t, false⟩
      else
        let numDest := buffer.getD off 0
        ⟨multicastLoop sock buffer t numDest (off + 1), t, false⟩

/-- `processListRequest` in `server.c`: flag-11 header with the count,
one flag-12 packet per table entry in list order, then flag 13, all to
the requesting socket. -/
def processListRequest (sock : Int) (t : HandleTable) : Effect :=
  ⟨(sock, listCountPacket (getHandleCount t)) ::
      (t.map (fun e => (sock, listEntryPacket e.handle)) ++ [(sock, [13])]),
    t, false⟩

/-- The dispatch switch of `processClientSocket` in `server.c` on the
flag byte of a received packet.  Unknown flags are ignored. -/
def processPacket (sock : Int) (buffer : List Nat) (t : HandleTable) :
    Effect :=
  match buffer.getD 0 0 with
  | 1 => processRegistration sock buffer t
  | 4 => processBroadcast sock buffer t
  | 5 => processMessage sock buffer t
  | 6 => processMulticast sock buffer t
  | 10 => processListRequest sock t
  | _ => ⟨[], t, false⟩

/-- Wire encoding of a destination list inside a flag-6 packet:
`dhlen · dest` per destination. -/
def encodeDests (ds : List (List Nat)) : List Nat :=
  (ds.map (fun d => d.length :: d)).flatten

/-- A well-formed flag-1 registration packet. -/
def mkRegister (h : List Nat) : List Nat := 1 :: h.length :: h

/-- A well-formed flag-4 broadcast packet. -/
def mkBroadcast (sender text : List Nat) : List Nat :=
  4 :: sender.length :: (sender ++ text)

/-- A flag-5 unicast packet with destination-count byte `c`. -/
def mkUnicast (sender : List Nat) (c : Nat) (d text : List Nat) : List Nat :=
  5 :: sender.length :: (sender ++ c :: d.length :: (d ++ text))

/-- A well-formed flag-6 multicast packet. -/
def mkMulticast (sender : List Nat) (ds : List (List Nat)) (text : List Nat) :
    List Nat :=
  6 :: sender.length :: (sender ++ ds.length :: (encodeDests ds ++ text))

/-- Registering a sequence of (handle, socket) pairs into an initially
empty table, in the given order. -/
def registerAll (ps : List (List Nat × Int)) : HandleTable :=
  ps.foldl (fun t p => (addHandle p.1 p.2 t).2) initHandleTable

/-! ### The PDU receive path (`recvPDU` in `pdu.c`) -/

/-- The result of one `recv(..., MSG_WAITALL)` call as seen by
`recvPDU`: either some bytes (possibly fewer than requested; zero bytes
means the peer closed), or a failure, with `connReset` recording whether
`errno == ECONNRESET`. -/
inductive RecvRes where
  | bytes (data : List Nat)
  | err (connReset : Bool)
deriving DecidableEq, Repr

/-- What `recvPDU` does for its caller: return a complete payload
(`payloadLen ≥ 0`), return 0 (`peerClosed`), return -1 (`protoError`),
or terminate the whole process via `exit` (`procExit`), which never
returns to the caller. -/
inductive PDUOutcome where
  | payload (data : List Nat)
  | peerClosed
  | protoError
  | procExit (code : Int)
deriving DecidableEq, Repr

/-- `recvPDU` in `pdu.c`, parameterised by what the transport returns
for the 2-byte header read and for the payload read. -/
def recvPDU (bufferSize : Nat) (headerRes payloadRes : RecvRes) : PDUOutcome :=
  match headerRes with
  | .err r => if r then .peerClosed else .protoError
  | .bytes hb =>
      if hb.length = 0 then .peerClosed
      else if hb.length ≠ 2 then .protoError
      else
        let totalLen := hb.getD 0 0 * 256 + hb.getD 1 0
        let payloadLen : Int := (totalLen : Int) - 2
        if (bufferSize : Int) < payloadLen then .procExit (-1)
        else
          match payloadRes with
          | .err r => if r then .peerClosed else .protoError
          | .bytes pb =>
              if pb.length = 0 then .peerClosed
              else if (pb.length : Int) ≠ payloadLen then .protoError
              else .payload pb

/-! ### Parsing helper lemmas -/

theorem getD_of_drop {l : List Nat} {i x : Nat} {rest : List Nat}
    (h : l.drop i = x :: rest) : l.getD i 0 = x := by
  have h0 : l[i]? = some x := by
    have h1 := List.getElem?_drop l i 0
    rw [Nat.add_zero] at h1
    rw [← h1, h]
    simp
  simp [List.getD_eq_getElem?_getD, h0]

theorem length_ge_of_drop {l : List Nat} {i x : Nat} {rest : List Nat}
    (h : l.drop i = x :: rest) : i + 1 ≤ l.length := by
  have h1 := congrArg List.length h
  rw [List.length_drop, List.length_cons] at h1
  omega

theorem drop_succ_of_drop {l : List Nat} {i x : Nat} {rest : List Nat}
    (h : l.drop i = x :: rest) : l.drop (i + 1) = rest := by
  have h1 : List.drop 1 (List.drop i l) = List.drop (i + 1) l :=
    List.drop_drop 1 i l
  rw [← h1, h]
  rfl

theorem drop_block {l : List Nat} {i : Nat} {blk rest : List Nat}
    (hi : i ≤ l.length) (h : l.drop i = blk ++ rest) :
    i + blk.length ≤ l.length ∧ (l.drop i).take blk.length = blk ∧
      l.drop (i + blk.length) = rest := by
  have hlen := congrArg List.length h
  rw [List.length_drop, List.length_append] at hlen
  refine ⟨by omega, by rw [h]; exact List.take_left _ _, ?_⟩
  have h1 : List.drop blk.length (List.drop i l) = List.drop (i + blk.length) l :=
    List.drop_drop blk.length i l
  rw [← h1, h, List.drop_left]

theorem cstr_eq_self {h : List Nat} (hz : 0 ∉ h) : cstr h = h := by
  apply List.takeWhile_eq_self_iff.mpr
  intro a ha
  simp only [ne_eq, decide_not, Bool.not_eq_true', decide_eq_false_iff_not]
  intro e
  exact hz (e ▸ ha)

theorem lookup_mem_of_ne {h : List Nat} {t : HandleTable}
    (hl : lookupSocketByHandle h t ≠ -1) : ∃ e ∈ t, e.handle = h := by
  induction t with
  | nil => simp [lookupSocketByHandle] at hl
  | cons e rest ih =>
      by_cases he : e.handle = h
      · exact ⟨e, List.mem_cons_self e rest, he⟩
      · rw [lookupSocketByHandle, if_neg he] at hl
        obtain ⟨e', he', hh⟩ := ih hl
        exact ⟨e', List.mem_cons_of_mem e he', hh⟩

theorem lookupHandle_mem {s : Int} {h : List Nat} {t : HandleTable}
    (hl : lookupHandleBySocket s t = some h) : ∃ e ∈ t, e.socket = s := by
  induction t with
  | nil => simp [lookupHandleBySocket] at hl
  | cons e rest ih =>
      by_cases he : e.socket = s
      · exact ⟨e, List.mem_cons_self e rest, he⟩
      · rw [lookupHandleBySocket, if_neg he] at hl
        obtain ⟨e', he', hh⟩ := ih hl
        exact ⟨e', List.mem_cons_of_mem e he', hh⟩

/-- `processBroadcast` on a well-formed flag-4 packet relays the packet
verbatim to every table entry whose socket differs from the sender's,
in table order, regardless of whether the sender is registered. -/
theorem processBroadcast_mk (sock : Int) (t : HandleTable) (sender text : List Nat) :
    processBroadcast sock (mkBroadcast sender text) t =
      ⟨(t.filter (fun e => e.socket ≠ sock)).map
          (fun e => (e.socket, mkBroadcast sender text)), t, false⟩ := by
  have hb : mkBroadcast sender text = 4 :: sender.length :: (sender ++ text) := rfl
  rw [processBroadcast, hb]
  simp only [List.length_cons, List.length_append, List.getD_cons_succ,
    List.getD_cons_zero]
  rw [if_neg (by omega), if_neg (by omega)]

/-- With pairwise distinct sockets and the sender's socket present,
filtering the sender's entry out removes exactly one entry. -/
theorem filter_ne_length {t : HandleTable} {sock : Int}
    (hnd : (t.map (fun e => e.socket)).Nodup)
    (hmem : ∃ e ∈ t, e.socket = sock) :
    (t.filter (fun e => e.socket ≠ sock)).length + 1 = t.length := by
  induction t with
  | nil => simp at hmem
  | cons a rest ih =>
      rw [List.map_cons, List.nodup_cons] at hnd
      by_cases ha : a.socket = sock
      · have hrest : rest.filter (fun e => e.socket ≠ sock) = rest := by
          apply List.filter_eq_self.mpr
          intro e he
          simp only [ne_eq, decide_not, Bool.not_eq_true', decide_eq_false_iff_not]
          intro heq
          exact hnd.1 (ha ▸ heq ▸ List.mem_map_of_mem (fun e => e.socket) he)
        rw [List.filter_cons, if_neg (by simp [ha]), hrest, List.length_cons]
      · obtain ⟨e, he, hes⟩ := hmem
        rcases List.mem_cons.mp he with rfl | hrest
        · exact absurd hes ha
        · have h1 := ih hnd.2 ⟨e, hrest, hes⟩
          rw [List.filter_cons, if_pos (by simp [ha]), List.length_cons,
            List.length_cons]
          omega

/-- Full characterization of `processRegistration` on a well-formed
flag-1 packet: flag 3 and close when the handle is over-long or already
present, otherwise flag 2 and a new entry at the head of the table. -/
theorem processRegistration_mk (sock : Int) (t : HandleTable) (h : List Nat)
    (hz : 0 ∉ h) :
    processRegistration sock (mkRegister h) t =
      if 100 < h.length then ⟨[(sock, [3])], t, true⟩
      else if lookupSocketByHandle h t ≠ -1 then ⟨[(sock, [3])], t, true⟩
      else ⟨[(sock, [2])], ⟨h, sock⟩ :: t, false⟩ := by
  have hcs : cstr h = h := cstr_eq_self hz
  have hb : mkRegister h = 1 :: h.length :: h := rfl
  rw [processRegistration, hb]
  simp only [List.length_cons, List.getD_cons_succ, List.getD_cons_zero,
    List.drop_succ_cons, List.drop_zero, List.take_length]
  rw [if_neg (by omega), if_neg (by omega), hcs]
  by_cases hc : 100 < h.length
  · rw [if_pos hc, if_pos hc]
  · rw [if_neg hc, if_neg hc]
    by_cases hd : lookupSocketByHandle h t ≠ -1
    · rw [if_pos hd, if_pos hd]
    · rw [if_neg hd, if_neg hd]
      rw [addHandle, hcs, List.take_of_length_le (by omega : h.length ≤ 100)]

/-- Folding `addHandle` over a list of clean (NUL-free, ≤ 100 byte)
handles builds the reversed entry list: the last registration sits at
the head of the table. -/
theorem registerAll_eq (ps : List (List Nat × Int))
    (hz : ∀ p ∈ ps, 0 ∉ p.1) (hl : ∀ p ∈ ps, p.1.length ≤ 100) :
    registerAll ps = (ps.map (fun p => ClientEntry.mk p.1 p.2)).reverse := by
  suffices hgen : ∀ t0 : HandleTable,
      ps.foldl (fun t p => (addHandle p.1 p.2 t).2) t0 =
        (ps.map (fun p => ClientEntry.mk p.1 p.2)).reverse ++ t0 by
    rw [registerAll, hgen initHandleTable, initHandleTable, List.append_nil]
  induction ps with
  | nil => intro t0; rfl
  | cons p ps ih =>
      intro t0
      have hzp : 0 ∉ p.1 := hz p (List.mem_cons_self p ps)
      have hlp : p.1.length ≤ 100 := hl p (List.mem_cons_self p ps)
      have hz' : ∀ q ∈ ps, 0 ∉ q.1 := fun q hq => hz q (List.mem_cons_of_mem p hq)
      have hl' : ∀ q ∈ ps, q.1.length ≤ 100 :=
        fun q hq => hl q (List.mem_cons_of_mem p hq)
      have hadd : (addHandle p.1 p.2 t0).2 = ClientEntry.mk p.1 p.2 :: t0 := by
        rw [addHandle, cstr_eq_self hzp, List.take_of_length_le hlp]
      rw [List.foldl_cons, hadd, ih hz' hl' (ClientEntry.mk p.1 p.2 :: t0),
        List.map_cons, List.reverse_cons, List.append_assoc]
      rfl

/-- Decoding the 4 big-endian bytes of a 32-bit value recovers it. -/
theorem be32Decode_be32 {n : Nat} (hn : n < 2 ^ 32) : be32Decode (be32 n) = n := by
  simp only [be32, be32Decode, List.getD_cons_zero, List.getD_cons_succ]
  omega

/-! ### Claim C1: unregistered connections and flags 4/5/6/10 -/

/-- Claim C1, counterexample.  Socket 5 is unregistered (the table maps
handle `[97]` to socket 7 only), yet a flag-4 broadcast from socket 5 is
relayed: the server sends a PDU derived from it to socket 7.  The claim
that the server ignores flags 4/5/6/10 from unregistered connections and
never relays them is false on the code. -/
theorem claim1_counterexample :
    lookupHandleBySocket 5 [⟨[97], 7⟩] = none ∧
    processPacket 5 [4, 0] [⟨[97], 7⟩] =
      ⟨[(7, [4, 0])], [⟨[97], 7⟩], false⟩ := by decide

/-- Claim C1, amended: the server never consults the sender's
registration state when dispatching.  A well-formed flag-4 broadcast
from an unregistered connection is relayed to every registered
connection with a different socket, and a flag-10 request from an
unregistered connection receives the full roster reply. -/
theorem claim1_amended (sock : Int) (t : HandleTable) (sender text : List Nat)
    (hunreg : lookupHandleBySocket sock t = none) :
    (processPacket sock (mkBroadcast sender text) t).sends =
      (t.filter (fun e => e.socket ≠ sock)).map
        (fun e => (e.socket, mkBroadcast sender text)) ∧
    (processPacket sock [10] t).sends =
      (sock, listCountPacket (getHandleCount t)) ::
        (t.map (fun e => (sock, listEntryPacket e.handle)) ++ [(sock, [13])]) := by
  constructor
  · have h1 : processPacket sock (mkBroadcast sender text) t =
        processBroadcast sock (mkBroadcast sender text) t := rfl
    rw [h1, processBroadcast_mk]
  · rfl

/-- Claim C1, amended, witness. -/
theorem claim1_amended_witness :
    (processPacket 5 (mkBroadcast [98] [104, 0]) [⟨[97], 7⟩]).sends =
      (([⟨[97], 7⟩] : HandleTable).filter (fun e => e.socket ≠ 5)).map
        (fun e => (e.socket, mkBroadcast [98] [104, 0])) :=
  (claim1_amended 5 [⟨[97], 7⟩] [98] [104, 0] (by decide)).1

/-! ### Claim C3: registration acceptance boundaries -/

/-- Claim C3, counterexample.  A flag-1 packet with declared handle
length 0 on an empty table is accepted: the server sends flag 2 and
creates an entry with the empty handle, instead of rejecting it with
flag 3 as the claim states for `hlen = 0`. -/
theorem claim3_counterexample :
    processRegistration 5 [1, 0] [] = ⟨[(5, [2])], [⟨[], 5⟩], false⟩ ∧
    processRegistration 5 [1, 0] [] ≠ ⟨[(5, [3])], [], true⟩ := by decide

/-- Claim C3, amended: a well-formed flag-1 packet is accepted (flag 2
and a new entry) iff the declared length is at most 100 — length 0
included — and the handle is not yet registered; otherwise the server
sends flag 3 and closes the connection. -/
theorem claim3_amended (sock : Int) (t : HandleTable) (h : List Nat)
    (hz : 0 ∉ h) (hbyte : h.length ≤ 255) :
    (h.length ≤ 100 ∧ lookupSocketByHandle h t = -1 →
        processRegistration sock (mkRegister h) t =
          ⟨[(sock, [2])], ⟨h, sock⟩ :: t, false⟩) ∧
    (100 < h.length ∨ lookupSocketByHandle h t ≠ -1 →
        processRegistration sock (mkRegister h) t =
          ⟨[(sock, [3])], t, true⟩) := by
  rw [processRegistration_mk sock t h hz]
  constructor
  · rintro ⟨hlen, hfree⟩
    rw [if_neg (by omega), if_neg (by simp [hfree])]
  · rintro (hlong | hdup)
    · rw [if_pos hlong]
    · by_cases hlong : 100 < h.length
      · rw [if_pos hlong]
      · rw [if_neg hlong, if_pos hdup]

/-- Claim C3, amended, witness: handle of length 1 accepted on an empty
table. -/
theorem claim3_amended_witness :
    processRegistration 5 (mkRegister [97]) [] =
      ⟨[(5, [2])], [⟨[97], 5⟩], false⟩ :=
  (claim3_amended 5 [] [97] (by decide) (by decide)).1 ⟨by decide, by decide⟩

/-! ### Claim C4: flag 1 on an already registered connection -/

/-- Claim C4, counterexample.  Socket 5 is registered with handle
`[97]`; an inbound flag-1 packet carrying the fresh handle `[98]` is not
ignored: the server replies flag 2 and adds a second registry entry for
socket 5, so a connection-id can hold two entries. -/
theorem claim4_counterexample :
    lookupHandleBySocket 5 [⟨[97], 5⟩] = some [97] ∧
    processPacket 5 [1, 1, 98] [⟨[97], 5⟩] =
      ⟨[(5, [2])], [⟨[98], 5⟩, ⟨[97], 5⟩], false⟩ := by decide

/-- Claim C4, amended: a flag-1 packet on a registered connection is
processed like any registration.  If the new handle is unused, the
server replies flag 2 and prepends a second entry for the same socket,
after which the table holds at least two entries for that socket. -/
theorem claim4_amended (sock : Int) (t : HandleTable) (h h' : List Nat)
    (hreg : lookupHandleBySocket sock t = some h)
    (hz : 0 ∉ h') (hlen : h'.length ≤ 100)
    (hfresh : lookupSocketByHandle h' t = -1) :
    processPacket sock (mkRegister h') t =
      ⟨[(sock, [2])], ⟨h', sock⟩ :: t, false⟩ ∧
    2 ≤ ((⟨h', sock⟩ :: t).filter (fun e => e.socket = sock)).length := by
  constructor
  · have h1 : processPacket sock (mkRegister h') t =
        processRegistration sock (mkRegister h') t := rfl
    rw [h1, processRegistration_mk sock t h' hz,
      if_neg (by omega), if_neg (by simp [hfresh])]
  · obtain ⟨e, he, hes⟩ := lookupHandle_mem hreg
    have hmem : e ∈ t.filter (fun e => e.socket = sock) :=
      List.mem_filter.mpr ⟨he, by simp [hes]⟩
    rw [List.filter_cons, if_pos (by simp), List.length_cons]
    have := List.length_pos_of_mem hmem
    omega

/-- Claim C4, amended, witness. -/
theorem claim4_amended_witness :
    processPacket 5 (mkRegister [98]) [⟨[97], 5⟩] =
      ⟨[(5, [2])], [⟨[98], 5⟩, ⟨[97], 5⟩], false⟩ :=
  (claim4_amended 5 [⟨[97], 5⟩] [97] [98] (by decide) (by decide)
    (by decide) (by decide)).1

/-! ### Claim C10: the registry add operation -/

/-- Claim C10, counterexample.  Adding handle `[97]` (already present,
mapped to socket 5) with socket 7 does not report a duplicate and does
not leave the table unchanged: `addHandle` returns 0 and prepends a
second `[97]` entry. -/
theorem claim10_counterexample :
    addHandle [97] 7 [⟨[97], 5⟩] = (0, [⟨[97], 7⟩, ⟨[97], 5⟩]) ∧
    (addHandle [97] 7 [⟨[97], 5⟩]).2 ≠ [⟨[97], 5⟩] := by decide

/-- Claim C10, amended: `addHandle` performs no duplicate check — it
always returns 0 (`Ok`) and unconditionally prepends the new entry; when
the handle is already registered the table afterwards holds at least two
entries with that handle.  Uniqueness is enforced only by the caller
(`processRegistration` rejects duplicates before calling `addHandle`). -/
theorem claim10_amended (h : List Nat) (s : Int) (t : HandleTable)
    (hz : 0 ∉ h) (hl : h.length ≤ 100) :
    addHandle h s t = (0, ⟨h, s⟩ :: t) ∧
    (lookupSocketByHandle h t ≠ -1 →
      2 ≤ ((addHandle h s t).2.countP (fun e => e.handle = h))) := by
  have hstore : (cstr h).take 100 = h := by
    rw [cstr_eq_self hz, List.take_of_length_le hl]
  constructor
  · rw [addHandle, hstore]
  · intro hdup
    obtain ⟨e, he, hes⟩ := lookup_mem_of_ne hdup
    have h1 : 0 < t.countP (fun e => decide (e.handle = h)) :=
      List.countP_pos_iff.mpr ⟨e, he, by simp [hes]⟩
    have h2 : ((⟨h, s⟩ : ClientEntry) :: t).countP (fun e => e.handle = h)
        = t.countP (fun e => e.handle = h) + 1 := by
      rw [List.countP_cons]
      simp
    rw [addHandle, hstore, h2]
    omega

/-- Claim C10, amended, witness. -/
theorem claim10_amended_witness :
    addHandle [97] 7 [⟨[97], 5⟩] = (0, [⟨[97], 7⟩, ⟨[97], 5⟩]) ∧
    2 ≤ ((addHandle [97] 7 [⟨[97], 5⟩]).2.countP (fun e => e.handle = [97])) :=
  ⟨(claim10_amended [97] 7 [⟨[97], 5⟩] (by decide) (by decide)).1,
   (claim10_amended [97] 7 [⟨[97], 5⟩] (by decide) (by decide)).2 (by decide)⟩

/-! ### Claim C2: roster order in the list reply -/

/-- Claim C2, counterexample.  Handles `[97]` and `[98]` are registered
in that order and none removed; the flag-12 roster packets carry `[98]`
before `[97]` — reverse registration order — not registration order as
the claim states. -/
theorem claim2_counterexample :
    (processListRequest 9 (registerAll [([97], 5), ([98], 6)])).sends =
      [(9, [11, 0, 0, 0, 2]), (9, [12, 1, 98]), (9, [12, 1, 97]), (9, [13])] ∧
    (processListRequest 9 (registerAll [([97], 5), ([98], 6)])).sends ≠
      [(9, [11, 0, 0, 0, 2]), (9, [12, 1, 97]), (9, [12, 1, 98]), (9, [13])] := by
  decide

/-- Claim C2, amended: if handles were registered in order
`h1, ..., hn` and none removed, a list request receives the flag-12
roster packets in reverse registration order `hn, ..., h1`, because
`addHandle` prepends and `processListRequest` iterates from the head. -/
theorem claim2_amended (sock : Int) (ps : List (List Nat × Int))
    (hz : ∀ p ∈ ps, 0 ∉ p.1) (hl : ∀ p ∈ ps, p.1.length ≤ 100) :
    (processListRequest sock (registerAll ps)).sends =
      (sock, listCountPacket ps.length) ::
        (ps.reverse.map (fun p => (sock, 12 :: p.1.length :: p.1)) ++
          [(sock, [13])]) := by
  rw [registerAll_eq ps hz hl, processListRequest]
  have hcount : getHandleCount ((ps.map (fun p => ClientEntry.mk p.1 p.2)).reverse)
      = ps.length := by
    rw [getHandleCount, List.length_reverse, List.length_map]
  rw [hcount]
  have hmap : ((ps.map (fun p => ClientEntry.mk p.1 p.2)).reverse).map
        (fun e => (sock, listEntryPacket e.handle)) =
      ps.reverse.map (fun p => (sock, 12 :: p.1.length :: p.1)) := by
    rw [← List.map_reverse, List.map_map]
    apply List.map_congr_left
    intro p hp
    have hp' : p ∈ ps := List.mem_reverse.mp hp
    have h1 : p.1.length % 256 = p.1.length := Nat.mod_eq_of_lt (by
      have := hl p hp'
      omega)
    simp only [Function.comp_apply, listEntryPacket, h1,
      List.take_of_length_le (le_of_eq rfl : p.1.length ≤ p.1.length)]
  rw [hmap]

/-- Claim C2, amended, witness. -/
theorem claim2_amended_witness :
    (processListRequest 9 (registerAll [([97], 5), ([98], 6)])).sends =
      (9, listCountPacket 2) ::
        (([([97], 5), ([98], 6)] : List (List Nat × Int)).reverse.map
            (fun p => (9, 12 :: p.1.length :: p.1)) ++ [(9, [13])]) :=
  claim2_amended 9 [([97], 5), ([98], 6)] (by decide) (by decide)

/-! ### Claim C8: shape of the list reply -/

/-- Claim C8, theorem.  The reply to a flag-10 list request on
connection `C` is a contiguous sequence of `1 + count + 1` PDUs all sent
to `C`, with flag 11 first, flag 12 on each of the `count` middle
packets, and flag 13 last, where `count` is the number of registry
entries and is carried big-endian in the 4 bytes after the flag of the
first packet. -/
theorem claim8_list_reply (sock : Int) (t : HandleTable)
    (hc : getHandleCount t < 2 ^ 32) :
    (processListRequest sock t).table = t ∧
    (processListRequest sock t).closed = false ∧
    (processListRequest sock t).sends.length = 1 + getHandleCount t + 1 ∧
    (∀ p ∈ (processListRequest sock t).sends, p.1 = sock) ∧
    (processListRequest sock t).sends.map (fun p => p.2.getD 0 0) =
      11 :: (List.replicate (getHandleCount t) 12 ++ [13]) ∧
    ((processListRequest sock t).sends.getD 0 (sock, [])).2 =
      11 :: be32 (getHandleCount t) ∧
    be32Decode (((processListRequest sock t).sends.getD 0 (sock, [])).2.drop 1) =
      getHandleCount t := by
  have hmod : getHandleCount t % 2 ^ 32 = getHandleCount t := Nat.mod_eq_of_lt hc
  refine ⟨rfl, rfl, ?_, ?_, ?_, ?_, ?_⟩
  · rw [processListRequest]
    simp only [List.length_cons, List.length_append, List.length_map,
      List.length_nil, getHandleCount]
    omega
  · intro p hp
    rw [processListRequest] at hp
    simp only [List.mem_cons, List.mem_append, List.mem_map,
      List.not_mem_nil, or_false] at hp
    rcases hp with h | ⟨e, _, rfl⟩ | h
    · rw [h]
    · rfl
    · rw [h]
  · rw [processListRequest]
    simp only [List.map_cons, List.map_append, List.map_map]
    have h1 : (listCountPacket (getHandleCount t)).getD 0 0 = 11 := rfl
    have h2 : t.map ((fun p : Int × List Nat => p.2.getD 0 0) ∘
          (fun e => (sock, listEntryPacket e.handle))) =
        List.replicate (getHandleCount t) 12 := by
      rw [getHandleCount, ← List.map_const']
      apply List.map_congr_left
      intro e _
      rfl
    rw [h1, h2]
    rfl
  · rw [processListRequest]
    simp only [List.getD_cons_zero, listCountPacket, hmod]
  · rw [processListRequest]
    simp only [List.getD_cons_zero, listCountPacket, hmod, List.drop_succ_cons,
      List.drop_zero]
    exact be32Decode_be32 hc

/-- Claim C8, witness. -/
theorem claim8_list_reply_witness :
    (processListRequest 3 [⟨[97], 5⟩]).sends.length =
      1 + getHandleCount [⟨[97], 5⟩] + 1 :=
  (claim8_list_reply 3 [⟨[97], 5⟩] (by decide)).2.2.1

/-! ### Claim C7: broadcast fan-out -/

/-- In a table whose sockets are pairwise distinct, the number of sends
of a list mapped over the non-sender entries to a given non-sender
registered socket is exactly one. -/
theorem countP_filter_socket {t : HandleTable} {sock s : Int}
    (hnd : (t.map (fun e => e.socket)).Nodup)
    (hs : s ∈ t.map (fun e => e.socket)) (hne : s ≠ sock) :
    (t.filter (fun e => e.socket ≠ sock)).countP (fun e => e.socket = s) = 1 := by
  rw [List.countP_filter]
  have hcong : (t.filter (fun e => e.socket = s)) =
      (t.filter (fun a => decide (a.socket = s) && decide (a.socket ≠ sock))) := by
    apply List.filter_congr
    intro a _
    by_cases h : a.socket = s
    · simp [h, hne]
    · simp [h]
  rw [List.countP_eq_length_filter, ← hcong, ← List.countP_eq_length_filter]
  have h1 : t.countP (fun e => e.socket = s) =
      (t.map (fun e => e.socket)).countP (fun x => x = s) := by
    rw [List.countP_map]
    rfl
  have h2 : (t.map (fun e => e.socket)).countP (fun x => x = s) =
      (t.map (fun e => e.socket)).count s := rfl
  rw [h1, h2]
  exact List.count_eq_one_of_mem hnd hs

/-- Claim C7, theorem.  After a well-formed flag-4 broadcast from a
registered sender `S` while the registry has `N` entries with pairwise
distinct sockets, the server emits exactly `N - 1` PDUs, each
byte-identical to the received packet, exactly one to each registered
socket other than `S`'s, and none to `S`. -/
theorem claim7_broadcast (sock : Int) (t : HandleTable) (sender text : List Nat)
    (hnd : (t.map (fun e => e.socket)).Nodup)
    (hmem : ∃ e ∈ t, e.socket = sock) :
    (processBroadcast sock (mkBroadcast sender text) t).table = t ∧
    (processBroadcast sock (mkBroadcast sender text) t).closed = false ∧
    (processBroadcast sock (mkBroadcast sender text) t).sends =
      (t.filter (fun e => e.socket ≠ sock)).map
        (fun e => (e.socket, mkBroadcast sender text)) ∧
    (processBroadcast sock (mkBroadcast sender text) t).sends.length =
      getHandleCount t - 1 ∧
    (∀ p ∈ (processBroadcast sock (mkBroadcast sender text) t).sends,
      p.2 = mkBroadcast sender text ∧ p.1 ≠ sock ∧ ∃ e ∈ t, e.socket = p.1) ∧
    (∀ e ∈ t, e.socket ≠ sock →
      (processBroadcast sock (mkBroadcast sender text) t).sends.countP
        (fun p => p.1 = e.socket) = 1) := by
  rw [processBroadcast_mk]
  refine ⟨rfl, rfl, rfl, ?_, ?_, ?_⟩
  · simp only [List.length_map]
    have h1 := filter_ne_length hnd hmem
    rw [getHandleCount]
    omega
  · intro p hp
    simp only [List.mem_map] at hp
    obtain ⟨e, he, rfl⟩ := hp
    have he' := List.mem_filter.mp he
    refine ⟨rfl, ?_, e, he'.1, rfl⟩
    simpa using he'.2
  · intro e he hne
    have h0 : (fun p : Int × List Nat => decide (p.1 = e.socket)) ∘
        (fun e' : ClientEntry => (e'.socket, mkBroadcast sender text)) =
        (fun e' : ClientEntry => decide (e'.socket = e.socket)) := rfl
    rw [List.countP_map, h0]
    exact countP_filter_socket hnd (List.mem_map_of_mem _ he) hne

/-- Claim C7, witness. -/
theorem claim7_broadcast_witness :
    (processBroadcast 5 (mkBroadcast [97] [104, 0])
        [⟨[97], 5⟩, ⟨[98], 6⟩]).sends.length =
      getHandleCount [⟨[97], 5⟩, ⟨[98], 6⟩] - 1 :=
  (claim7_broadcast 5 [⟨[97], 5⟩, ⟨[98], 6⟩] [97] [104, 0]
    (by decide) (by decide)).2.2.2.1

/-! ### Claim C5: multicast routing -/

/-- The per-destination action of the multicast loop: forward the whole
packet to a resolved destination, or send a flag-7 error packet back to
the sender for an unresolved one. -/
def multicastStep (sock : Int) (buffer : List Nat) (t : HandleTable)
    (d : List Nat) : Int × List Nat :=
  if lookupSocketByHandle d t = -1 then (sock, errorPacket d)
  else (lookupSocketByHandle d t, buffer)

/-- `processMulticast` never mutates the table and never closes the
sender's connection. -/
theorem processMulticast_frame (sock : Int) (buffer : List Nat) (t : HandleTable) :
    (processMulticast sock buffer t).table = t ∧
    (processMulticast sock buffer t).closed = false := by
  simp only [processMulticast]
  split
  · exact ⟨rfl, rfl⟩
  · split
    · exact ⟨rfl, rfl⟩
    · split
      · exact ⟨rfl, rfl⟩
      · exact ⟨rfl, rfl⟩

/-- Parsing the destination loop over an encoded destination list
produces exactly one action per destination, in request order. -/
theorem multicastLoop_encode (sock : Int) (t : HandleTable) (buffer : List Nat)
    (ds : List (List Nat)) (off : Nat) (rest : List Nat)
    (hz : ∀ d ∈ ds, 0 ∉ d)
    (hoff : buffer.drop off = encodeDests ds ++ rest) :
    multicastLoop sock buffer t ds.length off =
      ds.map (multicastStep sock buffer t) := by
  induction ds generalizing off rest with
  | nil => rfl
  | cons d ds ih =>
      have hz' : ∀ d' ∈ ds, 0 ∉ d' := fun d' hd' => hz d' (List.mem_cons_of_mem d hd')
      have hzd : 0 ∉ d := hz d (List.mem_cons_self d ds)
      have hcons : buffer.drop off = d.length :: (d ++ (encodeDests ds ++ rest)) := by
        rw [hoff]
        simp [encodeDests, List.append_assoc]
      have h1 := getD_of_drop hcons
      have h2 := length_ge_of_drop hcons
      have h3 := drop_succ_of_drop hcons
      obtain ⟨h4, _, h6⟩ := drop_block (by omega) h3
      rw [List.length_cons, multicastLoop]
      rw [if_neg (by omega)]
      simp only [h1]
      rw [if_neg (by omega), h3, List.take_left, cstr_eq_self hzd,
        ih (off + 1 + d.length) rest hz' h6]
      rfl

/-- Claim C5, theorem.  For a well-formed flag-6 multicast with
destination list `ds` (`k` entries, `r` of which resolve), the emissions
are exactly one action per destination in request order: the full packet
to each resolved destination and a flag-7 packet to the sender for each
unresolved one — `r` forwards plus `k - r` flag-7 packets, the latter in
the order of the failing destinations in the request. -/
theorem claim5_multicast (sock : Int) (t : HandleTable)
    (sender text : List Nat) (ds : List (List Nat))
    (hs : sender.length ≤ 255) (hk : ds.length ≤ 255)
    (hd : ∀ d ∈ ds, d.length ≤ 255) (hz : ∀ d ∈ ds, 0 ∉ d) :
    (processMulticast sock (mkMulticast sender ds text) t).table = t ∧
    (processMulticast sock (mkMulticast sender ds text) t).closed = false ∧
    (processMulticast sock (mkMulticast sender ds text) t).sends =
      ds.map (multicastStep sock (mkMulticast sender ds text) t) ∧
    (processMulticast sock (mkMulticast sender ds text) t).sends.filter
        (fun p => p.2 = mkMulticast sender ds text) =
      (ds.filter (fun d => lookupSocketByHandle d t ≠ -1)).map
        (fun d => (lookupSocketByHandle d t, mkMulticast sender ds text)) ∧
    (processMulticast sock (mkMulticast sender ds text) t).sends.filter
        (fun p => p.2 ≠ mkMulticast sender ds text) =
      (ds.filter (fun d => lookupSocketByHandle d t = -1)).map
        (fun d => (sock, errorPacket d)) ∧
    ((processMulticast sock (mkMulticast sender ds text) t).sends.filter
        (fun p => p.2 = mkMulticast sender ds text)).length =
      (ds.filter (fun d => lookupSocketByHandle d t ≠ -1)).length ∧
    ((processMulticast sock (mkMulticast sender ds text) t).sends.filter
        (fun p => p.2 ≠ mkMulticast sender ds text)).length =
      ds.length - (ds.filter (fun d => lookupSocketByHandle d t ≠ -1)).length := by
  have hne : ∀ d, errorPacket d ≠ mkMulticast sender ds text := by
    intro d hcontra
    have := congrArg (fun l => l.getD 0 0) hcontra
    simp [errorPacket, mkMulticast] at this
  have hB : mkMulticast sender ds text =
      6 :: sender.length :: (sender ++ ds.length :: (encodeDests ds ++ text)) := rfl
  have hsends : (processMulticast sock (mkMulticast sender ds text) t).sends =
      ds.map (multicastStep sock (mkMulticast sender ds text) t) := by
    rw [processMulticast]
    have hlen2 : (mkMulticast sender ds text).drop 2 =
        sender ++ (ds.length :: (encodeDests ds ++ text)) := rfl
    obtain ⟨hb1, _, hb3⟩ :=
      drop_block (l := mkMulticast sender ds text) (i := 2)
        (by
          rw [hB]
          simp only [List.length_cons]
          omega) hlen2
    have hgd1 : (mkMulticast sender ds text).getD 1 0 = sender.length := rfl
    have hnum := getD_of_drop hb3
    have hnumlen := length_ge_of_drop hb3
    have hdests := drop_succ_of_drop hb3
    rw [hgd1]
    rw [if_neg (by rw [hB]; simp only [List.length_cons]; omega)]
    rw [if_neg (by
      rw [hB]
      simp only [List.length_cons, List.length_append]
      omega)]
    rw [if_neg (by omega), hnum]
    exact multicastLoop_encode sock t (mkMulticast sender ds text) ds
      (2 + sender.length + 1) text hz hdests
  obtain ⟨hframe1, hframe2⟩ := processMulticast_frame sock (mkMulticast sender ds text) t
  refine ⟨hframe1, hframe2, hsends, ?_, ?_, ?_, ?_⟩
  · rw [hsends, List.filter_map]
    have hcong : ds.filter ((fun p : Int × List Nat =>
          decide (p.2 = mkMulticast sender ds text)) ∘
          multicastStep sock (mkMulticast sender ds text) t) =
        ds.filter (fun d => lookupSocketByHandle d t ≠ -1) := by
      apply List.filter_congr
      intro d _
      simp only [Function.comp_apply, multicastStep]
      by_cases hl : lookupSocketByHandle d t = -1
      · simp [hl, hne d]
      · simp [hl]
    rw [hcong]
    apply List.map_congr_left
    intro d hd'
    have hl := List.of_mem_filter hd'
    simp only [decide_not, Bool.not_eq_true', decide_eq_false_iff_not] at hl
    simp [multicastStep, hl]
  · rw [hsends, List.filter_map]
    have hcong : ds.filter ((fun p : Int × List Nat =>
          decide (¬p.2 = mkMulticast sender ds text)) ∘
          multicastStep sock (mkMulticast sender ds text) t) =
        ds.filter (fun d => lookupSocketByHandle d t = -1) := by
      apply List.filter_congr
      intro d _
      simp only [Function.comp_apply, multicastStep]
      by_cases hl : lookupSocketByHandle d t = -1
      · simp [hl, hne d]
      · simp [hl]
    rw [hcong]
    apply List.map_congr_left
    intro d hd'
    have hl := List.of_mem_filter hd'
    simp only [decide_eq_true_eq] at hl
    simp [multicastStep, hl]
  · rw [hsends, List.filter_map]
    have hcong : ds.filter ((fun p : Int × List Nat =>
          decide (p.2 = mkMulticast sender ds text)) ∘
          multicastStep sock (mkMulticast sender ds text) t) =
        ds.filter (fun d => lookupSocketByHandle d t ≠ -1) := by
      apply List.filter_congr
      intro d _
      simp only [Function.comp_apply, multicastStep]
      by_cases hl : lookupSocketByHandle d t = -1
      · simp [hl, hne d]
      · simp [hl]
    rw [hcong, List.length_map]
  · rw [hsends, List.filter_map]
    have hcong : ds.filter ((fun p : Int × List Nat =>
          decide (¬p.2 = mkMulticast sender ds text)) ∘
          multicastStep sock (mkMulticast sender ds text) t) =
        ds.filter (fun d => ! decide (lookupSocketByHandle d t ≠ -1)) := by
      apply List.filter_congr
      intro d _
      simp only [Function.comp_apply, multicastStep]
      by_cases hl : lookupSocketByHandle d t = -1
      · simp [hl, hne d]
      · simp [hl]
    rw [hcong, List.length_map]
    have hsplit := List.length_eq_length_filter_add
      (l := ds) (fun d => decide (lookupSocketByHandle d t ≠ -1))
    omega

/-- Claim C5, witness: two destinations, one resolvable. -/
theorem claim5_multicast_witness :
    ((processMulticast 5
        (mkMulticast [97] [[98], [99]] [104, 0]) [⟨[98], 6⟩]).sends.filter
      (fun p => p.2 ≠ mkMulticast [97] [[98], [99]] [104, 0])).length =
      ([[98], [99]] : List (List Nat)).length -
        (([[98], [99]] : List (List Nat)).filter
          (fun d => lookupSocketByHandle d [⟨[98], 6⟩] ≠ -1)).length :=
  (claim5_multicast 5 [⟨[98], 6⟩] [97] [104, 0] [[98], [99]]
    (by decide) (by decide) (by decide) (by decide)).2.2.2.2.2.2

/-! ### Claim C6: unicast routing -/

/-- Claim C6, theorem.  For a well-formed flag-5 unicast: a
destination-count byte other than 1 makes the server emit nothing; with
count 1, a resolvable destination receives exactly one PDU byte-identical
to the received packet and the sender receives nothing else, while an
unresolvable destination produces exactly one flag-7 packet carrying the
missing handle back to the sender and nothing to anyone else. -/
theorem claim6_unicast (sock : Int) (t : HandleTable) (sender d text : List Nat)
    (c : Nat) (hs : sender.length ≤ 255) (hcb : c ≤ 255)
    (hdl : d.length ≤ 255) (hz : 0 ∉ d) :
    (c ≠ 1 → processMessage sock (mkUnicast sender c d text) t = ⟨[], t, false⟩) ∧
    (c = 1 → lookupSocketByHandle d t = -1 →
        processMessage sock (mkUnicast sender c d text) t =
          ⟨[(sock, errorPacket d)], t, false⟩) ∧
    (c = 1 → lookupSocketByHandle d t ≠ -1 →
        processMessage sock (mkUnicast sender c d text) t =
          ⟨[(lookupSocketByHandle d t, mkUnicast sender c d text)], t, false⟩) := by
  have hB : mkUnicast sender c d text =
      5 :: sender.length :: (sender ++ c :: d.length :: (d ++ text)) := rfl
  have hdrop2 : (mkUnicast sender c d text).drop 2 =
      sender ++ (c :: d.length :: (d ++ text)) := rfl
  have h2le : 2 ≤ (mkUnicast sender c d text).length := by
    rw [hB]
    simp only [List.length_cons]
    omega
  obtain ⟨hb1, _, hb3⟩ := drop_block h2le hdrop2
  have hc0 := getD_of_drop hb3
  have hl1 := length_ge_of_drop hb3
  have hd1 := drop_succ_of_drop hb3
  have hdlv := getD_of_drop hd1
  have hl2 := length_ge_of_drop hd1
  have hd2 := drop_succ_of_drop hd1
  have hd2' : (mkUnicast sender c d text).drop (2 + sender.length + 2) =
      d ++ text := hd2
  have hl3 : 2 + sender.length + 2 + d.length ≤
      (mkUnicast sender c d text).length := by
    have h5 := congrArg List.length hd2'
    rw [List.length_drop, List.length_append] at h5
    omega
  have hgd1 : (mkUnicast sender c d text).getD 1 0 = sender.length := rfl
  have hredNe : c ≠ 1 →
      processMessage sock (mkUnicast sender c d text) t = ⟨[], t, false⟩ := by
    intro hc1
    simp only [processMessage, hgd1, hc0]
    rw [if_neg (by omega), if_neg (by omega), if_neg (by omega), if_pos hc1]
  have hred1 : c = 1 →
      processMessage sock (mkUnicast sender c d text) t =
        if lookupSocketByHandle d t = -1 then ⟨[(sock, errorPacket d)], t, false⟩
        else ⟨[(lookupSocketByHandle d t, mkUnicast sender c d text)], t,
          false⟩ := by
    intro hc1
    simp only [processMessage, hgd1, hc0, hdlv]
    rw [if_neg (by omega), if_neg (by omega), if_neg (by omega),
      if_neg (by simp [hc1]), if_neg (by omega), if_neg (by omega)]
    rw [hd2', List.take_left, cstr_eq_self hz]
  refine ⟨hredNe, ?_, ?_⟩
  · intro hc1 hmiss
    rw [hred1 hc1, if_pos hmiss]
  · intro hc1 hhit
    rw [hred1 hc1, if_neg (by simpa using hhit)]

/-- Claim C6, witness: count byte 1, destination `[98]` resolvable. -/
theorem claim6_unicast_witness :
    processMessage 5 (mkUnicast [97] 1 [98] [104, 0]) [⟨[98], 6⟩] =
      ⟨[(lookupSocketByHandle [98] [⟨[98], 6⟩],
          mkUnicast [97] 1 [98] [104, 0])], [⟨[98], 6⟩], false⟩ :=
  (claim6_unicast 5 [⟨[98], 6⟩] [97] [98] [104, 0] 1
    (by decide) (by decide) (by decide) (by decide)).2.2 rfl (by decide)

/-! ### Claim C9: outcomes of the PDU receive path -/

/-- Claim C9, counterexample.  With `bufferSize = 10` and a header
declaring total length 20 (payload length 18 > 10), `recvPDU` does not
return any failure the caller can act on: it terminates the whole
process via `exit(-1)`. -/
theorem claim9_counterexample :
    recvPDU 10 (RecvRes.bytes [0, 20]) (RecvRes.bytes []) =
      PDUOutcome.procExit (-1) ∧
    recvPDU 10 (RecvRes.bytes [0, 20]) (RecvRes.bytes []) ≠
      PDUOutcome.protoError ∧
    recvPDU 10 (RecvRes.bytes [0, 20]) (RecvRes.bytes []) ≠
      PDUOutcome.peerClosed := by decide

/-- Claim C9, amended.  `recvPDU` returns to its caller exactly one of:
a complete payload of length at most `bufferSize`, the peer-closed
sentinel (return 0, to which connection resets are mapped), or the
protocol-error failure (return -1, e.g. on a 1-byte partial header
read).  When the decoded payload length exceeds `bufferSize` it does
not return a failure at all: it exits the process. -/
theorem claim9_amended (bufferSize : Nat) (hdr pl : RecvRes) :
    (∀ data, recvPDU bufferSize hdr pl = PDUOutcome.payload data →
        data.length ≤ bufferSize) ∧
    (recvPDU bufferSize (RecvRes.err true) pl = PDUOutcome.peerClosed) ∧
    (∀ b, recvPDU bufferSize (RecvRes.bytes [b]) pl =
        PDUOutcome.protoError) ∧
    (∀ b0 b1, (bufferSize : Int) < ((b0 * 256 + b1 : Nat) : Int) - 2 →
        recvPDU bufferSize (RecvRes.bytes [b0, b1]) pl =
          PDUOutcome.procExit (-1)) ∧
    (∀ b0 b1, ¬ (bufferSize : Int) < ((b0 * 256 + b1 : Nat) : Int) - 2 →
        recvPDU bufferSize (RecvRes.bytes [b0, b1]) (RecvRes.err true) =
          PDUOutcome.peerClosed) := by
  refine ⟨?_, ?_, ?_, ?_, ?_⟩
  · intro data hdata
    cases hdr with
    | err r => cases r <;> simp [recvPDU] at hdata
    | bytes hb =>
        cases pl with
        | err r =>
            simp only [recvPDU] at hdata
            split at hdata
            · exact absurd hdata (by simp)
            · split at hdata
              · exact absurd hdata (by simp)
              · split at hdata
                · exact absurd hdata (by simp)
                · cases r <;> simp at hdata
        | bytes pb =>
            simp only [recvPDU] at hdata
            split at hdata
            · exact absurd hdata (by simp)
            · split at hdata
              · exact absurd hdata (by simp)
              · split at hdata
                · exact absurd hdata (by simp)
                · split at hdata
                  · exact absurd hdata (by simp)
                  · split at hdata
                    · exact absurd hdata (by simp)
                    · obtain rfl : pb = data := by injection hdata
                      omega
  · simp [recvPDU]
  · intro b
    simp [recvPDU]
  · intro b0 b1 hbig
    simp only [recvPDU]
    rw [if_neg (by simp), if_neg (by simp), if_pos (by simpa using hbig)]
  · intro b0 b1 hsmall
    simp only [recvPDU]
    rw [if_neg (by simp), if_neg (by simp), if_neg (by simpa using hsmall)]
    simp

/-- Claim C9, amended, witness. -/
theorem claim9_amended_witness :
    recvPDU 10 (RecvRes.bytes [0, 20]) (RecvRes.bytes [1]) =
      PDUOutcome.procExit (-1) :=
  (claim9_amended 10 (RecvRes.bytes [0, 20])
      (RecvRes.bytes [1])).2.2.2.1 0 20 (by decide)

end Chat
